import Mathlib

/-!
Shallow embedding of the R1CS decoder and DIP-69 packaging pipeline of
`src/main.rs` (crate qa1).  Byte streams are modelled as `List ℕ` (each
entry one byte); fixed-width little-endian reads, the header decoder,
the sparse-linear-combination decoder, the circuit-builder wire
resolution, the verifying-key chunking and the script assembly are
translated directly from the source.  The scalar field `Fr` of
BLS12-381 (ark_bls12_381::Fr) is modelled as `ZMod r` for the scalar
modulus `r`.
-/

namespace QA1

/-- The BLS12-381 scalar-field modulus (the order of `ark_bls12_381::Fr`). -/
def blsScalarOrder : ℕ :=
  52435875175126190479447740508185965837690552500527637822603658699938581184513

/-- The scalar field the decoder instantiates `F` with (`ark_bls12_381::Fr`). -/
abbrev Fr := ZMod blsScalarOrder

/-- `read_u32::<LittleEndian>`: consume four bytes, little-endian. -/
def readU32 : List ℕ → Option (ℕ × List ℕ)
  | b0 :: b1 :: b2 :: b3 :: rest =>
      some (b0 + 256 * b1 + 65536 * b2 + 16777216 * b3, rest)
  | _ => none

/-- `read_exact` into a buffer of `n` bytes. -/
def readExact : ℕ → List ℕ → Option (List ℕ × List ℕ)
  | 0, s => some ([], s)
  | _ + 1, [] => none
  | n + 1, b :: s =>
      match readExact n s with
      | none => none
      | some (bs, r) => some (b :: bs, r)

/-- Little-endian 4-byte encoding of a `u32` value. -/
def u32le (n : ℕ) : List ℕ :=
  [n % 256, n / 256 % 256, n / 65536 % 256, n / 16777216 % 256]

/-- The header structure `R1CSFileHeader` of `src/main.rs`. -/
structure R1CSFileHeader where
  num_public : ℕ
  num_witness : ℕ
  num_constraints : ℕ
  field_size_bytes : ℕ
  deriving DecidableEq, Repr

/-- `R1CSFileHeader::read` (src/main.rs lines 43–115): seven
little-endian `u32` reads; magic and version are checked; when
`num_public > total_wires` the decoder *adjusts* `num_public` to
`total_wires - 1` and returns success early (before the constraint-count
ceiling check); the mismatch `num_public + num_private ≠ total_wires`
only prints a warning.  (`total_wires - 1` is `u32` subtraction in Rust,
which panics on underflow in debug builds; theorems about the adjusted
branch therefore assume `0 < total_wires`.) -/
def R1CSFileHeader.read (s : List ℕ) :
    Except String (R1CSFileHeader × List ℕ) :=
  match readU32 s with
  | none => .error "io"
  | some (magic, s1) =>
    if magic ≠ 0x73633172 then .error "Invalid R1CS file magic identifier"
    else match readU32 s1 with
    | none => .error "io"
    | some (version, s2) =>
      if version ≠ 1 then .error "Unsupported R1CS version"
      else match readU32 s2 with
      | none => .error "io"
      | some (field_size, s3) =>
        match readU32 s3 with
        | none => .error "io"
        | some (total_wires, s4) =>
          match readU32 s4 with
          | none => .error "io"
          | some (num_public, s5) =>
            match readU32 s5 with
            | none => .error "io"
            | some (_num_private, s6) =>
              match readU32 s6 with
              | none => .error "io"
              | some (num_constraints, s7) =>
                if num_public > total_wires then
                  .ok ({ num_public := total_wires - 1,
                         num_witness := total_wires,
                         num_constraints := num_constraints,
                         field_size_bytes := field_size * 8 }, s7)
                else if num_constraints > 1000000 then
                  .error "R1CS constraints too large"
                else
                  .ok ({ num_public := num_public,
                         num_witness := total_wires,
                         num_constraints := num_constraints,
                         field_size_bytes := field_size * 8 }, s7)

/-- `R1CSFileInstance::bytes_to_field` (src/main.rs lines 211–214): the
coefficient bytes are ignored and the constant `*zero + F::one()` is
returned. -/
def bytesToField (_bytes : List ℕ) (zero : Fr) : Except String Fr :=
  .ok (zero + 1)

/-- The term loop of `R1CSFileInstance::read_sparse_lc` (src/main.rs
lines 188–205): for each declared term read a `u32` wire index and
`field_size_bytes` coefficient bytes; a wire index above 100000000 is
skipped (`continue`) after its bytes were consumed; otherwise the
converted coefficient is pushed. -/
def readTerms : ℕ → ℕ → List ℕ → Option (List (Fr × ℕ) × List ℕ)
  | 0, _, s => some ([], s)
  | n + 1, fieldSizeBytes, s =>
    match readU32 s with
    | none => none
    | some (idx, s1) =>
      match readExact fieldSizeBytes s1 with
      | none => none
      | some (coeffBytes, s2) =>
        if idx > 100000000 then
          readTerms n fieldSizeBytes s2
        else
          match bytesToField coeffBytes 0 with
          | .error _ => none
          | .ok coeff =>
            match readTerms n fieldSizeBytes s2 with
            | none => none
            | some (ts, r) => some ((coeff, idx) :: ts, r)

/-- `R1CSFileInstance::read_sparse_lc` (src/main.rs lines 176–208): read
the `u32` term count; a count above 10000 returns an *empty* combination
successfully; otherwise the terms are read. -/
def readSparseLc (fieldSizeBytes : ℕ) (s : List ℕ) :
    Option (List (Fr × ℕ) × List ℕ) :=
  match readU32 s with
  | none => none
  | some (numTerms, s1) =>
    if numTerms > 10000 then some ([], s1)
    else readTerms numTerms fieldSizeBytes s1

/-- The structure `ConstraintInstance` of `src/main.rs`: a constraint as
three sparse linear combinations, each a list of
(coefficient, wire-index) pairs. -/
structure ConstraintInstance where
  a : List (Fr × ℕ)
  b : List (Fr × ℕ)
  c : List (Fr × ℕ)
  deriving DecidableEq, Repr

/-- One iteration of the constraint loop in `R1CSFileInstance::read`
(src/main.rs lines 135–155): read A, B, C; an empty B is replaced by
the single term `(F::one(), 0)`; an empty C is replaced by a clone of
A. -/
def readConstraint (fieldSizeBytes : ℕ) (s : List ℕ) :
    Option (ConstraintInstance × List ℕ) :=
  match readSparseLc fieldSizeBytes s with
  | none => none
  | some (a, s1) =>
    match readSparseLc fieldSizeBytes s1 with
    | none => none
    | some (b, s2) =>
      match readSparseLc fieldSizeBytes s2 with
      | none => none
      | some (c, s3) =>
        let b' := if b.isEmpty then [((1 : Fr), 0)] else b
        let c' := if c.isEmpty then a else c
        some ({ a := a, b := b', c := c' }, s3)

/-- The full constraint loop of `R1CSFileInstance::read`, in file
order. -/
def readConstraints : ℕ → ℕ → List ℕ → Option (List ConstraintInstance × List ℕ)
  | 0, _, s => some ([], s)
  | n + 1, fieldSizeBytes, s =>
    match readConstraint fieldSizeBytes s with
    | none => none
    | some (con, s1) =>
      match readConstraints n fieldSizeBytes s1 with
      | none => none
      | some (cons, s2) => some (con :: cons, s2)

/-- The element-zeroing loop `for i in 1..min(len, num_public+1)` of
`R1CSFileInstance::read` (src/main.rs lines 168–171), as a recursion on
the remaining iteration count starting at position `i`. -/
def setZeroFrom (w : List Fr) (i : ℕ) : ℕ → List Fr
  | 0 => w
  | k + 1 => setZeroFrom (w.set i 0) (i + 1) k

/-- The witness initialisation of `R1CSFileInstance::read` (src/main.rs
lines 157–171): a vector of `num_witness` zeros, entry 0 set to one when
the vector is nonempty, then entries `1..min(len, num_public+1)` set to
zero. -/
def mkWitness (numWitness numPublic : ℕ) : List Fr :=
  let w := List.replicate numWitness (0 : Fr)
  let w := if w.isEmpty then w else w.set 0 1
  setZeroFrom w 1 (min w.length (numPublic + 1) - 1)

/-- `R1CSFileInstance::read` (src/main.rs lines 123–174): decode the
header (which consumes exactly the 28 header bytes, matching the
`seek(28)` in the source), read `num_constraints` constraints, then
build the fixed witness vector.  Returns the witness and the constraint
list. -/
def R1CSFileInstance.read (s : List ℕ) :
    Except String (List Fr × List ConstraintInstance) :=
  match R1CSFileHeader.read s with
  | .error e => .error e
  | .ok (header, s1) =>
    match readConstraints header.num_constraints header.field_size_bytes s1 with
    | none => .error "io"
    | some (cons, _) =>
      .ok (mkWitness header.num_witness header.num_public, cons)

/-- The wire-index resolution of `SparseLc::to_linear_combination`
(src/main.rs lines 232–244): index 0 is the ONE variable; an index `i`
with `i ≤ pub_vars.len()` selects `pub_vars[i-1]`; otherwise, when
`i - 1 - pub_vars.len()` is within `priv_vars`, that private variable;
an out-of-range index falls back to the ONE variable (with only a
console warning).  (`getD` with default `one_var`: the Rust indexing is
guarded, so the default is only reached in the stated branch.) -/
def resolveWire {V : Type} (i : ℕ) (one_var : V)
    (pub_vars priv_vars : List V) : V :=
  if i = 0 then one_var
  else if i ≤ pub_vars.length then pub_vars.getD (i - 1) one_var
  else if i - 1 - pub_vars.length < priv_vars.length then
    priv_vars.getD (i - 1 - pub_vars.length) one_var
  else one_var

/-- `SparseLc::to_linear_combination` (src/main.rs lines 224–248): map
each term's wire index to a variable by the match of lines 232–244 and
accumulate `(coefficient, variable)` pairs; always returns `Ok`.
(Accumulation into the arkworks `LinearCombination` is modelled as list
building in term order; the arkworks-internal sorted-insert is an
external collaborator.) -/
def toLinearCombination {V : Type} (terms : List (Fr × ℕ)) (one_var : V)
    (pub_vars priv_vars : List V) : Except String (List (Fr × V)) :=
  .ok (terms.map (fun t =>
    (t.1,
      if t.2 = 0 then one_var
      else if t.2 ≤ pub_vars.length then pub_vars.getD (t.2 - 1) one_var
      else if t.2 - 1 - pub_vars.length < priv_vars.length then
        priv_vars.getD (t.2 - 1 - pub_vars.length) one_var
      else one_var)))

/-- Iteration core of `vk_bytes.chunks(72)`: structural recursion on a
fuel bound (each step consumes at least one byte, so `l.length` fuel is
enough). -/
def chunksOf72 : ℕ → List ℕ → List (List ℕ)
  | 0, _ => []
  | _ + 1, [] => []
  | fuel + 1, l => l.take 72 :: chunksOf72 fuel (l.drop 72)

/-- `vk_bytes.chunks(72)` (src/main.rs line 432): split into chunks of
72 bytes, the last chunk possibly shorter. -/
def chunks72 (l : List ℕ) : List (List ℕ) :=
  chunksOf72 l.length l

/-- The chunk-count adjustment of src/main.rs lines 432–439: fewer than
6 chunks is padded with all-zero 72-byte chunks (`resize`), more than 6
is truncated. -/
def vkChunksAdjusted (vkBytes : List ℕ) : List (List ℕ) :=
  let c := chunks72 vkBytes
  if c.length < 6 then c ++ List.replicate (6 - c.length) (List.replicate 72 0)
  else if c.length > 6 then c.take 6
  else c

/-- `serialize_fr_to_32_bytes_le_padded_front(&Fr::zero())`
(src/main.rs lines 261–267 applied at zero): the little-endian bytes of
the zero bigint resized to 32 bytes, i.e. 32 zero bytes. -/
def zeroScalarBytes : List ℕ := List.replicate 32 0

/-- Iteration core of the `while stack_items_bytes.len() < 10` padding
loop: structural recursion on a fuel bound (each iteration adds one
item, so 10 iterations always reach the exit condition). -/
def padStackTo10Aux : ℕ → List (List ℕ) → List (List ℕ)
  | 0, s => s
  | fuel + 1, s =>
    if s.length < 10 then padStackTo10Aux fuel (s ++ [zeroScalarBytes]) else s

/-- The `while stack_items_bytes.len() < 10` padding loop of
src/main.rs lines 461–464. -/
def padStackTo10 (s : List (List ℕ)) : List (List ℕ) :=
  padStackTo10Aux 10 s

/-- The stack-item assembly of src/main.rs lines 443–471: the eight
proof items, the public-input items, padding to ten items, the six
verifying-key chunks, then the mode byte `[0]`. -/
def buildStackItems (proofItems pubItems : List (List ℕ))
    (vkBytes : List ℕ) : List (List ℕ) :=
  padStackTo10 (proofItems ++ pubItems) ++ vkChunksAdjusted vkBytes ++ [[0]]

/-- The push-operation encoding of one stack item (the `match item_len`
of src/main.rs lines 510–533): a one-byte zero item is `OP_0` (0x00); a
length 1–75 item is a bare length prefix then the bytes; 76–255 is
`OP_PUSHDATA1` (0x4c), the length, the bytes; anything else (including
length 0) is `OP_PUSHDATA2` (0x4d), two little-endian length bytes
(`len & 0xff`, `(len >> 8) as u8`), the bytes. -/
def encodePush (item : List ℕ) : List ℕ :=
  let L := item.length
  if L = 1 ∧ item.getD 0 0 = 0 then [0x00]
  else if 1 ≤ L ∧ L ≤ 75 then L :: item
  else if 76 ≤ L ∧ L ≤ 255 then 0x4c :: L :: item
  else 0x4d :: (L % 256) :: (L / 256 % 256) :: item

/-- The script-assembly loop of src/main.rs lines 507–536: accumulate
the push encoding of each stack item in order, then append the
`OP_CHECKZKP` terminal opcode 0xb9. -/
def assembleScript (items : List (List ℕ)) : List ℕ :=
  (items.foldl (fun buf item => buf ++ encodePush item) []) ++ [0xb9]

/-- The whole packaging-and-assembly pass of `main` (src/main.rs lines
443–538) as a function of the serialized proof items, public-input
items and verifying-key bytes: the ordered stack items and the script
bytes. -/
def packageAndAssemble (proofItems pubItems : List (List ℕ))
    (vkBytes : List ℕ) : List (List ℕ) × List ℕ :=
  let items := buildStackItems proofItems pubItems vkBytes
  (items, assembleScript items)

/-! ### Helper lemmas -/

theorem readU32_u32le (n : ℕ) (r : List ℕ) (h : n < 4294967296) :
    readU32 (u32le n ++ r) = some (n, r) := by
  simp only [u32le, List.cons_append, List.nil_append, readU32,
    Option.some.injEq, Prod.mk.injEq]
  exact ⟨by omega, trivial⟩

theorem readU32_length {s : List ℕ} {v : ℕ} {r : List ℕ}
    (h : readU32 s = some (v, r)) : s.length = 4 + r.length := by
  match s with
  | b0 :: b1 :: b2 :: b3 :: rest =>
    simp only [readU32, Option.some.injEq, Prod.mk.injEq] at h
    simp only [List.length_cons, ← h.2]
    omega
  | [] | [_] | [_, _] | [_, _, _] => simp [readU32] at h

theorem readExact_length {n : ℕ} {s : List ℕ} {b r : List ℕ}
    (h : readExact n s = some (b, r)) : s.length = n + r.length := by
  induction n generalizing s b r with
  | zero =>
    simp only [readExact, Option.some.injEq, Prod.mk.injEq] at h
    simp [← h.2]
  | succ m ih =>
    match s with
    | [] => simp [readExact] at h
    | x :: xs =>
      simp only [readExact] at h
      cases he : readExact m xs with
      | none => rw [he] at h; simp at h
      | some p =>
        rw [he] at h
        simp only [Option.some.injEq, Prod.mk.injEq] at h
        have := ih (b := p.1) (r := p.2) (by rw [he])
        simp only [List.length_cons, this, ← h.2]
        omega

theorem readTerms_spec {n fs : ℕ} {s : List ℕ} {ts : List (Fr × ℕ)}
    {rest : List ℕ} (h : readTerms n fs s = some (ts, rest)) :
    (∀ p ∈ ts, p.2 ≤ 100000000) ∧
      s.length = n * (4 + fs) + rest.length ∧ ts.length ≤ n := by
  induction n generalizing s ts rest with
  | zero =>
    simp only [readTerms, Option.some.injEq, Prod.mk.injEq] at h
    simp [← h.1, ← h.2]
  | succ m ih =>
    simp only [readTerms] at h
    split at h
    · exact absurd h (by simp)
    next idx s1 hu =>
      split at h
      · exact absurd h (by simp)
      next coeffBytes s2 he =>
        have hs : s.length = 4 + s1.length := readU32_length hu
        have hx : s1.length = fs + s2.length := readExact_length he
        split at h
        next hbig =>
          obtain ⟨h1, h2, h3⟩ := ih h
          exact ⟨h1, by rw [hs, hx, h2]; ring,
            le_trans h3 (Nat.le_succ m)⟩
        next hbig =>
          simp only [bytesToField] at h
          split at h
          · exact absurd h (by simp)
          next ts' r' hr =>
            simp only [Option.some.injEq, Prod.mk.injEq] at h
            obtain ⟨hts, hrest⟩ := h
            obtain ⟨h1, h2, h3⟩ := ih hr
            refine ⟨?_, ?_, ?_⟩
            · intro p hp
              rw [← hts] at hp
              rcases List.mem_cons.mp hp with hp | hp
              · rw [hp]; omega
              · exact h1 p hp
            · rw [hs, hx, h2, ← hrest]; ring
            · rw [← hts]
              simpa using h3

theorem chunksOf72_flatten (fuel : ℕ) (l : List ℕ) (h : l.length ≤ fuel) :
    (chunksOf72 fuel l).flatten = l := by
  induction fuel generalizing l with
  | zero =>
    have : l = [] := List.length_eq_zero.mp (Nat.le_zero.mp h)
    simp [this, chunksOf72]
  | succ m ih =>
    match l with
    | [] => simp [chunksOf72]
    | x :: xs =>
      simp only [chunksOf72, List.flatten_cons]
      rw [ih ((x :: xs).drop 72) (by simp at h ⊢; omega)]
      exact List.take_append_drop 72 (x :: xs)

theorem vkChunksAdjusted_length (l : List ℕ) :
    (vkChunksAdjusted l).length = 6 := by
  unfold vkChunksAdjusted
  by_cases h1 : (chunks72 l).length < 6
  · simp [h1]; omega
  · rw [if_neg h1]
    by_cases h2 : (chunks72 l).length > 6
    · simp [h2]; omega
    · simp [h2]; omega

theorem padStackTo10Aux_length (fuel : ℕ) (s : List (List ℕ))
    (h1 : s.length ≤ 10) (h2 : 10 ≤ s.length + fuel) :
    (padStackTo10Aux fuel s).length = 10 := by
  induction fuel generalizing s with
  | zero => simp only [padStackTo10Aux]; omega
  | succ m ih =>
    simp only [padStackTo10Aux]
    by_cases hlt : s.length < 10
    · rw [if_pos hlt]
      exact ih (s ++ [zeroScalarBytes]) (by simp; omega) (by simp; omega)
    · rw [if_neg hlt]; omega

theorem foldl_encodePush (items : List (List ℕ)) (acc : List ℕ) :
    items.foldl (fun buf item => buf ++ encodePush item) acc =
      acc ++ (items.map encodePush).flatten := by
  induction items generalizing acc with
  | nil => simp
  | cons x xs ih => simp [ih, List.append_assoc]

theorem set_replicate_zero (m j : ℕ) :
    (List.replicate m (0 : Fr)).set j 0 = List.replicate m 0 := by
  induction m generalizing j with
  | zero => simp
  | succ k ih =>
    match j with
    | 0 => simp [List.replicate_succ]
    | j + 1 => simp [List.replicate_succ, List.set_cons_succ, ih]

theorem setZeroFrom_one_replicate (k : ℕ) :
    ∀ (m i : ℕ), 1 ≤ i →
      setZeroFrom (1 :: List.replicate m (0 : Fr)) i k =
        1 :: List.replicate m 0 := by
  induction k with
  | zero => intro m i _; rfl
  | succ j ih =>
    intro m i hi
    simp only [setZeroFrom]
    match i, hi with
    | i + 1, _ =>
      rw [List.set_cons_succ, set_replicate_zero]
      exact ih m (i + 2) (by omega)

theorem mkWitness_succ (m p : ℕ) :
    mkWitness (m + 1) p = 1 :: List.replicate m 0 := by
  unfold mkWitness
  simp only [List.replicate_succ, List.isEmpty_cons, if_neg, Bool.false_eq_true,
    not_false_eq_true, List.set_cons_zero]
  exact setZeroFrom_one_replicate _ _ _ (le_refl 1)

theorem mkWitness_get (n p i : ℕ) (h : i < (mkWitness n p).length) :
    (mkWitness n p).get ⟨i, h⟩ = if i = 0 then 1 else 0 := by
  match n with
  | 0 =>
    exfalso
    have : mkWitness 0 p = [] := rfl
    rw [this] at h
    simp at h
  | m + 1 =>
    have hw := mkWitness_succ m p
    match i with
    | 0 => simp only [if_pos rfl, List.get]; rw [List.get_of_eq hw]; rfl
    | j + 1 =>
      rw [List.get_of_eq hw]
      have hj : j < m := by
        have := h; rw [hw] at this; simp at this; omega
      simp only [List.get_cons_succ, if_neg (Nat.succ_ne_zero j)]
      exact List.get_replicate _ _

/-! ### Claim theorems -/

/-- C1, counterexample: a header encoding `total_wires = 5`,
`num_public = 10`, `num_private = 0` violates both sanity checks of the
claim (`num_public > total_wires` and
`num_public + num_private ≠ total_wires - 1`), yet `R1CSFileHeader::read`
returns a successfully decoded header whose `num_public` has been
silently corrected to 4 — refuting the claim that such headers are
rejected with an error. -/
theorem c1_counterexample :
    R1CSFileHeader.read (u32le 0x73633172 ++ u32le 1 ++ u32le 4 ++ u32le 5 ++
        u32le 10 ++ u32le 0 ++ u32le 1) =
      .ok ({ num_public := 4, num_witness := 5, num_constraints := 1,
             field_size_bytes := 32 }, []) := rfl

/-- C1, amended: for every well-formed header stream, first, when the
encoded `num_public` exceeds `total_wires`, `R1CSFileHeader::read` does
not return an error but a successfully decoded header with `num_public`
silently adjusted to `total_wires - 1`; and second, when
`num_public ≤ total_wires` and the constraint count is within its
ceiling, decoding succeeds with the encoded values unchanged for
*every* `num_private` — in particular when
`num_public + num_private ≠ total_wires`, so such a count mismatch
alone only produces a console warning, never an error. -/
theorem c1_amended (fs tw npub npriv nc : ℕ) (rest : List ℕ)
    (hfs : fs < 4294967296) (htw : tw < 4294967296) (hnp : npub < 4294967296)
    (hnpriv : npriv < 4294967296) (hnc : nc < 4294967296) :
    (0 < tw → tw < npub →
      R1CSFileHeader.read (u32le 0x73633172 ++ u32le 1 ++ u32le fs ++ u32le tw ++
          u32le npub ++ u32le npriv ++ u32le nc ++ rest) =
        .ok ({ num_public := tw - 1, num_witness := tw, num_constraints := nc,
               field_size_bytes := fs * 8 }, rest)) ∧
    (npub ≤ tw → nc ≤ 1000000 →
      R1CSFileHeader.read (u32le 0x73633172 ++ u32le 1 ++ u32le fs ++ u32le tw ++
          u32le npub ++ u32le npriv ++ u32le nc ++ rest) =
        .ok ({ num_public := npub, num_witness := tw, num_constraints := nc,
               field_size_bytes := fs * 8 }, rest)) := by
  have hred : R1CSFileHeader.read (u32le 0x73633172 ++ u32le 1 ++ u32le fs ++
      u32le tw ++ u32le npub ++ u32le npriv ++ u32le nc ++ rest) =
      if npub > tw then
        .ok ({ num_public := tw - 1, num_witness := tw, num_constraints := nc,
               field_size_bytes := fs * 8 }, rest)
      else if nc > 1000000 then .error "R1CS constraints too large"
      else
        .ok ({ num_public := npub, num_witness := tw, num_constraints := nc,
               field_size_bytes := fs * 8 }, rest) := by
    unfold R1CSFileHeader.read
    rw [List.append_assoc, List.append_assoc, List.append_assoc, List.append_assoc,
      List.append_assoc, List.append_assoc]
    rw [readU32_u32le 0x73633172 _ (by norm_num)]
    simp only
    rw [readU32_u32le 1 _ (by norm_num)]
    simp only
    rw [readU32_u32le fs _ hfs]
    simp only
    rw [readU32_u32le tw _ htw]
    simp only
    rw [readU32_u32le npub _ hnp]
    simp only
    rw [readU32_u32le npriv _ hnpriv]
    simp only
    rw [readU32_u32le nc _ hnc]
    simp only
    norm_num
  constructor
  · intro _ h
    rw [hred, if_pos h]
  · intro h1 h2
    rw [hred, if_neg (by omega), if_neg (by omega)]

/-- Witness for C1 amended: the first stream exercises the
`num_public > total_wires` adjustment; the second has
`num_public = 2`, `num_private = 7`, `total_wires = 5` — a
`2 + 7 ≠ 5` count mismatch alone — and decodes successfully with the
encoded values unchanged. -/
theorem c1_witness :
    R1CSFileHeader.read (u32le 0x73633172 ++ u32le 1 ++ u32le 2 ++ u32le 3 ++
        u32le 9 ++ u32le 0 ++ u32le 7 ++ []) =
      .ok ({ num_public := 2, num_witness := 3, num_constraints := 7,
             field_size_bytes := 16 }, []) ∧
    R1CSFileHeader.read (u32le 0x73633172 ++ u32le 1 ++ u32le 2 ++ u32le 5 ++
        u32le 2 ++ u32le 7 ++ u32le 3 ++ []) =
      .ok ({ num_public := 2, num_witness := 5, num_constraints := 3,
             field_size_bytes := 16 }, []) :=
  ⟨(c1_amended 2 3 9 0 7 [] (by norm_num) (by norm_num) (by norm_num)
      (by norm_num) (by norm_num)).1 (by norm_num) (by norm_num),
   (c1_amended 2 5 2 7 3 [] (by norm_num) (by norm_num) (by norm_num)
      (by norm_num) (by norm_num)).2 (by norm_num) (by norm_num)⟩

/-- C2, counterexample: a term with wire index 5 against empty public
and private variable lists (so the index is far beyond the allocated
variable count) makes `SparseLc::to_linear_combination` return `Ok`
with the term silently redirected to the ONE variable — refuting the
claim that an out-of-range wire index fails with a reportable error. -/
theorem c2_counterexample :
    toLinearCombination [((1 : Fr), 5)] (0 : ℕ) [] [] = .ok [(1, 0)] := rfl

/-- C2, amended: `SparseLc::to_linear_combination` never fails: it
always returns `Ok` of the term list with each wire index resolved by
`resolveWire`, and `resolveWire` maps every out-of-range index
(nonzero, beyond the public and private variable lists) to the ONE
variable, with only a console warning. -/
theorem c2_amended {V : Type} (terms : List (Fr × ℕ)) (one_var : V)
    (pub_vars priv_vars : List V) :
    toLinearCombination terms one_var pub_vars priv_vars =
      .ok (terms.map fun t => (t.1, resolveWire t.2 one_var pub_vars priv_vars)) ∧
    ∀ i, i ≠ 0 → pub_vars.length < i →
      priv_vars.length ≤ i - 1 - pub_vars.length →
      resolveWire i one_var pub_vars priv_vars = one_var := by
  constructor
  · rfl
  · intro i h0 hp hpr
    unfold resolveWire
    rw [if_neg h0, if_neg (by omega), if_neg (by omega)]

/-- Witness for C2 amended at a concrete out-of-range term. -/
theorem c2_witness :
    toLinearCombination [((1 : Fr), 3)] (7 : ℕ) [] [] =
      .ok [((1 : Fr), resolveWire 3 7 [] [])] ∧
    resolveWire 3 (7 : ℕ) [] [] = 7 :=
  ⟨(c2_amended [((1 : Fr), 3)] 7 [] []).1,
   (c2_amended [((1 : Fr), 3)] 7 [] []).2 3 (by norm_num) (by simp) (by simp)⟩

/-- C3, counterexample: a one-constraint file whose B and C sparse
combinations are both empty decodes successfully, but the stored
constraint has a constant-one placeholder term `(1, 0)` inserted into B
and a copy of A substituted for C — refuting the claim that empty
combinations are preserved as-is. -/
theorem c3_counterexample :
    R1CSFileInstance.read (u32le 0x73633172 ++ u32le 1 ++ u32le 1 ++ u32le 2 ++
        u32le 0 ++ u32le 2 ++ u32le 1 ++
        (u32le 1 ++ u32le 1 ++ [1, 0, 0, 0, 0, 0, 0, 0]) ++ u32le 0 ++ u32le 0) =
      .ok ([1, 0],
        [{ a := [((1 : Fr), 1)], b := [(1, 0)], c := [(1, 1)] }]) := rfl

/-- C3, amended: in `R1CSFileInstance::read`, an empty A combination
is preserved as-is, but an empty B combination is replaced by the
single constant-one term `(1, 0)` and an empty C combination is
replaced by a copy of A; decoding does not fail in either case. -/
theorem c3_amended (fs : ℕ) (s s1 s2 s3 : List ℕ) (a b c : List (Fr × ℕ))
    (ha : readSparseLc fs s = some (a, s1))
    (hb : readSparseLc fs s1 = some (b, s2))
    (hc : readSparseLc fs s2 = some (c, s3)) :
    readConstraint fs s =
      some ({ a := a, b := if b.isEmpty then [((1 : Fr), 0)] else b,
              c := if c.isEmpty then a else c }, s3) := by
  unfold readConstraint
  rw [ha]
  simp only
  rw [hb]
  simp only
  rw [hc]

/-- Witness for C3 amended at a concrete constraint stream. -/
theorem c3_witness :
    readConstraint 8 (u32le 1 ++ u32le 1 ++ [1, 0, 0, 0, 0, 0, 0, 0] ++
        u32le 0 ++ u32le 0) =
      some ({ a := [((1 : Fr), 1)], b := [(1, 0)], c := [(1, 1)] }, []) :=
  c3_amended 8 _ _ _ _ [((1 : Fr), 1)] [] [] rfl rfl rfl

/-- C4, counterexample: a sparse combination declaring 10001 terms
(above the 10000 ceiling) does not abort decoding:
`R1CSFileInstance::read_sparse_lc` returns a successfully decoded
*empty* combination and leaves the stream at the position right after
the count — exactly the substitute result the claim rules out. -/
theorem c4_counterexample :
    readSparseLc 32 (u32le 10001 ++ [9, 9, 9]) = some ([], [9, 9, 9]) := rfl

/-- C4, amended: in `R1CSFileInstance::read_sparse_lc` a declared
term count above the 10000 ceiling does not abort with an error; the
count is consumed, no terms are read, and an empty combination is
returned successfully (only `read_r1cs_file` in src/r1cs.rs turns an
oversized count into a hard error). -/
theorem c4_amended (fs n : ℕ) (rest : List ℕ)
    (h1 : 10000 < n) (h2 : n < 4294967296) :
    readSparseLc fs (u32le n ++ rest) = some ([], rest) := by
  unfold readSparseLc
  rw [readU32_u32le n rest h2]
  simp only
  rw [if_pos h1]

/-- Witness for C4 amended at a concrete oversized count. -/
theorem c4_witness : readSparseLc 8 (u32le 20000 ++ [1, 2]) = some ([], [1, 2]) :=
  c4_amended 8 20000 [1, 2] (by norm_num) (by norm_num)

/-- C5, counterexample: the coefficient byte strings `[2]` and `[3]`
differ, yet `bytes_to_field` decodes both to the same field element 1 —
refuting the claim that the conversion is exact and that different
coefficient bytes decode to different field elements. -/
theorem c5_counterexample :
    bytesToField [2] 0 = bytesToField [3] 0 ∧ bytesToField [2] 0 = .ok 1 :=
  ⟨rfl, rfl⟩

/-- C5, amended: `bytes_to_field` ignores the coefficient bytes
entirely and returns the fixed constant `zero + one` for every input;
no byte-order conversion of the coefficient takes place. -/
theorem c5_amended (b1 b2 : List ℕ) (z : Fr) :
    bytesToField b1 z = bytesToField b2 z ∧ bytesToField b1 z = .ok (z + 1) :=
  ⟨rfl, rfl⟩

set_option maxRecDepth 10000 in
/-- C6, counterexample: a 100-byte verifying-key buffer (not a
multiple of the 72-byte chunk size) is packaged into chunks of lengths
[72, 28, 72, 72, 72, 72]: the final data chunk keeps its partial length
28 instead of being zero-padded to 72 — refuting the claim that every
chunk is exactly the chunk-size constant long. -/
theorem c6_counterexample :
    (vkChunksAdjusted (List.replicate 100 1)).map List.length =
      [72, 28, 72, 72, 72, 72] := by decide

/-- C6, amended: the chunk count is always brought to exactly the
protocol constant 6 (by appending all-zero 72-byte chunks or by
truncating), but the data chunks themselves are the unpadded 72-byte
slices of the buffer — flattening them returns the buffer exactly, so
a final partial chunk is never zero-padded. -/
theorem c6_amended (l : List ℕ) :
    (vkChunksAdjusted l).length = 6 ∧ (chunks72 l).flatten = l :=
  ⟨vkChunksAdjusted_length l, chunksOf72_flatten l.length l (le_refl _)⟩

/-- C7: the script assembler encodes each stack item by length `L`
exactly as claimed — a one-byte zero item as the bare `OP_0` opcode
with no data, `1 ≤ L ≤ 75` (otherwise) as a one-byte length then the
raw bytes, `76 ≤ L ≤ 255` as `OP_PUSHDATA1`, the length byte, then the
bytes, and larger items as `OP_PUSHDATA2` with a two-byte little-endian
length — and the assembled script is the concatenation of the item
encodings in order followed by exactly one terminal `OP_CHECKZKP`
opcode. -/
theorem c7_push_encoding :
    (∀ item : List ℕ,
      (item.length = 1 → item.getD 0 0 = 0 → encodePush item = [0]) ∧
      (1 ≤ item.length → item.length ≤ 75 →
        ¬(item.length = 1 ∧ item.getD 0 0 = 0) →
        encodePush item = item.length :: item) ∧
      (76 ≤ item.length → item.length ≤ 255 →
        encodePush item = 0x4c :: item.length :: item) ∧
      (255 < item.length → item.length < 65536 →
        encodePush item = 0x4d :: item.length % 256 :: item.length / 256 :: item)) ∧
    ∀ items : List (List ℕ),
      assembleScript items = (items.map encodePush).flatten ++ [0xb9] := by
  constructor
  · intro item
    refine ⟨?_, ?_, ?_, ?_⟩
    · intro h1 h2
      unfold encodePush
      rw [if_pos ⟨h1, h2⟩]
    · intro h1 h2 h3
      unfold encodePush
      rw [if_neg h3, if_pos ⟨h1, h2⟩]
    · intro h1 h2
      unfold encodePush
      rw [if_neg (by rintro ⟨ha, -⟩; omega), if_neg (by rintro ⟨-, hb⟩; omega),
        if_pos ⟨h1, h2⟩]
    · intro h1 h2
      unfold encodePush
      rw [if_neg (by rintro ⟨ha, -⟩; omega), if_neg (by rintro ⟨-, hb⟩; omega),
        if_neg (by rintro ⟨-, hb⟩; omega)]
      have hq : item.length / 256 % 256 = item.length / 256 := by omega
      rw [hq]
  · intro items
    unfold assembleScript
    rw [foldl_encodePush items []]
    simp

set_option maxRecDepth 4000 in
/-- Witness for C7 at concrete items of each length class. -/
theorem c7_witness :
    encodePush [0] = [0] ∧ encodePush [7] = 1 :: [7] ∧
    encodePush (List.replicate 76 2) = 0x4c :: 76 :: List.replicate 76 2 ∧
    encodePush (List.replicate 300 2) = 0x4d :: 44 :: 1 :: List.replicate 300 2 ∧
    assembleScript [[0]] = ([[0]].map encodePush).flatten ++ [0xb9] :=
  ⟨(c7_push_encoding.1 [0]).1 rfl rfl,
   (c7_push_encoding.1 [7]).2.1 (by norm_num) (by norm_num) (by simp),
   (c7_push_encoding.1 (List.replicate 76 2)).2.2.1 (by simp) (by simp),
   (c7_push_encoding.1 (List.replicate 300 2)).2.2.2 (by simp) (by simp),
   c7_push_encoding.2 [[0]]⟩

/-- C8: the packaging-and-assembly pass is a pure function of the
serialized proof items, public-input items and verifying-key bytes, so
running it twice on the same inputs yields identical stack-item
sequences and script bytes; moreover with the eight proof items and at
most two public inputs the pass always produces exactly the 17 stack
items asserted in `main`. -/
theorem c8_deterministic (proofItems pubItems : List (List ℕ)) (vkBytes : List ℕ) :
    packageAndAssemble proofItems pubItems vkBytes =
      packageAndAssemble proofItems pubItems vkBytes ∧
    (proofItems.length = 8 → pubItems.length ≤ 2 →
      (packageAndAssemble proofItems pubItems vkBytes).1.length = 17) := by
  refine ⟨rfl, fun h8 h2 => ?_⟩
  have hlen : (proofItems ++ pubItems).length ≤ 10 := by
    rw [List.length_append, h8]; omega
  have h10 : (padStackTo10 (proofItems ++ pubItems)).length = 10 :=
    padStackTo10Aux_length 10 _ hlen (by omega)
  show (buildStackItems proofItems pubItems vkBytes).length = 17
  unfold buildStackItems
  simp [h10, vkChunksAdjusted_length]

set_option maxRecDepth 10000 in
/-- Witness for C8 at concrete packaging inputs. -/
theorem c8_witness :
    packageAndAssemble (List.replicate 8 [3]) [[4]] (List.replicate 100 1) =
      packageAndAssemble (List.replicate 8 [3]) [[4]] (List.replicate 100 1) ∧
    (packageAndAssemble (List.replicate 8 [3]) [[4]]
        (List.replicate 100 1)).1.length = 17 :=
  ⟨(c8_deterministic _ _ _).1,
   (c8_deterministic _ _ _).2 (by simp) (by simp)⟩

/-- C9: whenever `read_sparse_lc` succeeds with a declared term count
within the ceiling, every returned term has wire index at most
100000000, the stream advances by exactly `4 + field_size_bytes` bytes
for each *declared* term (so a dropped term's coefficient bytes were
consumed), and the returned list can be shorter than the declared
count. -/
theorem c9_oversized_terms_dropped (fs n : ℕ) (s s1 : List ℕ)
    (ts : List (Fr × ℕ)) (rest : List ℕ)
    (hu : readU32 s = some (n, s1)) (hn : n ≤ 10000)
    (h : readSparseLc fs s = some (ts, rest)) :
    (∀ p ∈ ts, p.2 ≤ 100000000) ∧
      s1.length = n * (4 + fs) + rest.length ∧ ts.length ≤ n := by
  unfold readSparseLc at h
  rw [hu] at h
  simp only at h
  rw [if_neg (by omega)] at h
  exact readTerms_spec h

/-- Witness for C9: a combination declaring two terms, one with wire
index 100000001, parses successfully to a single-term list with all
declared bytes consumed. -/
theorem c9_witness :
    (∀ p ∈ [((1 : Fr), 5)], p.2 ≤ 100000000) ∧
      (u32le 5 ++ [7] ++ u32le 100000001 ++ [9]).length =
        2 * (4 + 1) + ([] : List ℕ).length ∧
      ([((1 : Fr), 5)] : List (Fr × ℕ)).length ≤ 2 :=
  c9_oversized_terms_dropped 1 2 (u32le 2 ++ (u32le 5 ++ [7] ++ u32le 100000001 ++ [9]))
    (u32le 5 ++ [7] ++ u32le 100000001 ++ [9]) [((1 : Fr), 5)] []
    (by rfl) (by norm_num) (by rfl)

/-- C10: every `R1CSFileInstance` returned by a successful read has
`witness[0] = 1` and `witness[i] = 0` for all `i ≥ 1` — the values are
fixed by the header-derived length alone and no witness data is read
from the file. -/
theorem c10_witness_fixed (s : List ℕ) (w : List Fr)
    (cons : List ConstraintInstance)
    (h : R1CSFileInstance.read s = .ok (w, cons)) :
    ∀ i (hi : i < w.length), w.get ⟨i, hi⟩ = if i = 0 then 1 else 0 := by
  unfold R1CSFileInstance.read at h
  split at h
  · exact absurd h (by simp)
  next header s1 hh =>
    split at h
    · exact absurd h (by simp)
    next cons' s2 hc =>
      simp only [Except.ok.injEq, Prod.mk.injEq] at h
      obtain ⟨hw, -⟩ := h
      subst hw
      intro i hi
      exact mkWitness_get _ _ i hi

/-- Witness for C10 at a concrete zero-constraint file. -/
theorem c10_witness :
    ([(1 : Fr), 0].get ⟨1, by norm_num⟩) = if 1 = 0 then 1 else 0 :=
  c10_witness_fixed
    (u32le 0x73633172 ++ u32le 1 ++ u32le 1 ++ u32le 2 ++ u32le 1 ++ u32le 1 ++ u32le 0)
    [1, 0] [] rfl 1 (by norm_num)

end QA1
